import Mathlib

/-
Verification of the LogosAPI JavaScript bridge (src/index.js) against its
natural-language specification.

The development shallowly embeds the bridge: the mutable fields of the
`LogosAPI` class become a `BridgeState` record, every public method becomes a
pure function from a state (and a `NativeEnv` describing the behavior of the
black-box native library) to a result, a successor state, and the list of
native entry points invoked.  JavaScript exceptions are modelled with
`Except String`; JavaScript `Map`s become association lists; the
nondeterministic callback-id generator (`Date.now` + `Math.random`) becomes an
explicit fresh-id argument.  JSON.parse / JSON.stringify are JS builtins
external to the repository, so they are abstracted: a parse function
`String → Option JsonValue` models the decode attempt, and the
stringify outcome is carried as data on the value being encoded.
-/

namespace LogosSDK

/-- A JSON value as carried around by the callback layer.  The JSON grammar
itself is not modelled (JSON.parse is a JS builtin): values of this type are
whatever an abstract parse function produced. -/
inductive JsonValue where
  | jnull
  | jbool (b : Bool)
  | jnum (q : ℚ)
  | jstr (s : String)
deriving DecidableEq

/-- The message payload handed to a user callback: either a decoded JSON value
or, when the decode attempt failed, the raw text passed through unchanged.
Mirrors the inner try/catch of `_createFFICallback` (src/index.js:496-500). -/
inductive MsgPayload where
  | json (v : JsonValue)
  | raw (s : String)
deriving DecidableEq

/-- `JSON.parse` attempt of `_createFFICallback`: on parse failure the raw
message is passed through unchanged (src/index.js:496-500). -/
def decodeMessage (parse : String → Option JsonValue) (msg : String) : MsgPayload :=
  match parse msg with
  | some v => MsgPayload.json v
  | none => MsgPayload.raw msg

/-- A user-supplied callback.  `hid` is the identity of the JS function object;
`run` is its behavior: it receives the success flag and decoded payload and
may throw (`Except.error` carries the thrown message). -/
structure UserCB where
  hid : Nat
  run : Bool → MsgPayload → Except String Unit

/-- Record of one invocation of a user handler: which handler fired and with
which arguments. -/
structure Invocation where
  hid : Nat
  success : Bool
  payload : MsgPayload
deriving DecidableEq

/-- One native callback delivery: the `(result : int, message : string)` pair
the native side passes to the FFI callback. -/
structure FFIDelivery where
  result : Int
  message : String
deriving DecidableEq

/-- Body of the `try` block of the dispatcher created by `_createFFICallback`
(src/index.js:491-507): compute `success := result === 1`, opportunistically
decode the message, then call the user callback (which may throw).  Returns
the invocation that happened together with the user callback's outcome. -/
def ffiCallbackTry (cb : UserCB) (parse : String → Option JsonValue)
    (d : FFIDelivery) : List Invocation × Except String Unit :=
  let success := d.result == 1
  let parsed := decodeMessage parse d.message
  ([⟨cb.hid, success, parsed⟩], cb.run success parsed)

/-- The full dispatcher of `_createFFICallback` (src/index.js:488-513): the
`try` body plus the `catch` that logs `Error in callback <id>:` and swallows
the exception.  Returns (invocations, console.error log lines, what propagates
out of the FFI callback). -/
def ffiCallbackDispatch (cb : UserCB) (callbackId : String)
    (parse : String → Option JsonValue) (d : FFIDelivery) :
    List Invocation × List String × Except String Unit :=
  match ffiCallbackTry cb parse d with
  | (invs, Except.ok ()) => (invs, [], Except.ok ())
  | (invs, Except.error e) =>
      (invs, ["Error in callback " ++ callbackId ++ ": " ++ e], Except.ok ())

/-- A sequence of native deliveries to the dispatcher bound to one callback id
(the native side may invoke the same FFI callback repeatedly).  Accumulates
invocations and log lines. -/
def deliverMany (cb : UserCB) (callbackId : String)
    (parse : String → Option JsonValue) :
    List FFIDelivery → List Invocation × List String
  | [] => ([], [])
  | d :: rest =>
      let r1 := ffiCallbackDispatch cb callbackId parse d
      let r2 := deliverMany cb callbackId parse rest
      (r1.1 ++ r2.1, r1.2.1 ++ r2.2)

/-- Deliveries to several dispatchers in order (each item: the callback, its
id, and the delivery).  Models a stream of native callback firings hitting
possibly different registered handlers. -/
def dispatchSeq (parse : String → Option JsonValue) :
    List (UserCB × String × FFIDelivery) → List Invocation × List String
  | [] => ([], [])
  | (cb, id, d) :: rest =>
      let r1 := ffiCallbackDispatch cb id parse d
      let r2 := dispatchSeq parse rest
      (r1.1 ++ r2.1, r1.2.1 ++ r2.2)

/-- Association-list lookup, modelling `Map.get`. -/
def lookupAssoc {α : Type} : List (String × α) → String → Option α
  | [], _ => none
  | (k, v) :: rest, key => if k = key then some v else lookupAssoc rest key

/-- Association-list update, modelling `Map.set` (replace if present, append
otherwise). -/
def setAssoc {α : Type} : List (String × α) → String → α → List (String × α)
  | [], key, v => [(key, v)]
  | (k, w) :: rest, key, v =>
      if k = key then (key, v) :: rest else (k, w) :: setAssoc rest key v

/-- One entry of `this.eventListeners` (src/index.js:377-382). -/
structure EventListenerRec where
  pluginName : String
  eventName : String
  cb : UserCB

/-- The mutable fields of the `LogosAPI` instance.  `hasCore` models
`this.LogosCore !== null`; `eventProcessingInterval` models presence of the
interval handle. -/
structure BridgeState where
  isInitialized : Bool
  isStarted : Bool
  eventProcessingInterval : Bool
  hasCore : Bool
  callbacks : List (String × UserCB)
  eventListeners : List (String × EventListenerRec)

/-- The native entry points of liblogos_core that the bridge can invoke
(src/index.js:103-128).  For the async calls the fresh callback id tags which
dispatcher closure was handed to the native side. -/
inductive NativeCall where
  | coreInit
  | setPluginsDir (dir : String)
  | coreStart
  | coreExec
  | coreCleanup
  | getLoadedPluginsNative
  | getKnownPluginsNative
  | loadPluginNative (name : String)
  | unloadPluginNative (name : String)
  | processPluginNative (path : String)
  | callPluginMethodAsyncNative (plugin method params callbackId : String)
  | registerEventListenerNative (plugin event listenerId : String)
  | processEvents
deriving DecidableEq

/-- Behavior of the black-box native library and of the filesystem checks
performed during initialization. -/
structure NativeEnv where
  /-- outcome of `_loadLibrary` (filesystem checks + ffi.Library). -/
  libLoad : Except String Unit
  /-- outcome of the plugins-directory existence checks in `_initializeCore`. -/
  pluginsDirCheck : Except String Unit
  /-- resolved plugins directory. -/
  pluginsDir : String
  /-- platform library extension (`.dylib` / `.dll` / `.so`). -/
  libExt : String
  /-- `logos_core_process_plugin`: returns a nullable C string, or the FFI
  call throws. -/
  processNative : String → Except String (Option String)
  /-- `logos_core_load_plugin`: returns an int, or throws. -/
  loadNative : String → Except String Int
  /-- `logos_core_unload_plugin`: returns an int, or throws. -/
  unloadNative : String → Except String Int
  /-- pointer returned by `logos_core_get_loaded_plugins`: null, or a memory
  block of nullable string slots. -/
  loadedPtr : Option (List (Option String))
  /-- pointer returned by `logos_core_get_known_plugins`. -/
  knownPtr : Option (List (Option String))
  /-- result of `logos_core_exec`. -/
  execResult : Int

/-- JS truthiness of the nullable string returned by
`logos_core_process_plugin` — `!!result` (src/index.js:256-257): null and the
empty string are falsy. -/
def jsTruthyOptString : Option String → Bool
  | none => false
  | some s => !(s == "")

/-- The lifecycle guard message thrown by every guarded method. -/
def notInitializedMsg : String := "LogosAPI must be initialized first"

/-- `init()` (src/index.js:64-77): throws if already initialized, otherwise
loads the library and initializes the core, wrapping any failure message.
`this.LogosCore` is assigned by `_loadLibrary` even when the later
plugins-directory check fails. -/
def init (st : BridgeState) (env : NativeEnv) :
    Except String Bool × BridgeState × List NativeCall :=
  if st.isInitialized then
    (Except.error "LogosAPI is already initialized", st, [])
  else
    match env.libLoad with
    | Except.error msg =>
        (Except.error ("Failed to initialize LogosAPI: " ++ msg), st, [])
    | Except.ok () =>
        let st1 := { st with hasCore := true }
        match env.pluginsDirCheck with
        | Except.error msg =>
            (Except.error ("Failed to initialize LogosAPI: " ++ msg), st1,
              [NativeCall.coreInit])
        | Except.ok () =>
            (Except.ok true, { st1 with isInitialized := true },
              [NativeCall.coreInit, NativeCall.setPluginsDir env.pluginsDir])

/-- `start()` (src/index.js:181-193). -/
def start (st : BridgeState) :
    Except String Bool × BridgeState × List NativeCall :=
  if st.isInitialized then
    if st.isStarted then
      (Except.error "LogosAPI is already started", st, [])
    else
      (Except.ok true, { st with isStarted := true }, [NativeCall.coreStart])
  else
    (Except.error "LogosAPI must be initialized before starting", st, [])

/-- Reading a null-terminated block of string pointers: stop at the first null
slot (src/index.js:463-471).  Memory is modelled as a finite list of slots. -/
def readUntilNull : List (Option String) → List String
  | [] => []
  | none :: _ => []
  | some s :: rest => s :: readUntilNull rest

/-- `_convertCStringArrayToJS` (src/index.js:457-474): empty list for a null
source pointer, otherwise the strings up to the first null sentinel. -/
def convertCStringArrayToJS : Option (List (Option String)) → List String
  | none => []
  | some mem => readUntilNull mem

/-- `getLoadedPlugins()` (src/index.js:198-205). -/
def getLoadedPlugins (st : BridgeState) (env : NativeEnv) :
    Except String (List String) × BridgeState × List NativeCall :=
  if st.isInitialized then
    (Except.ok (convertCStringArrayToJS env.loadedPtr), st,
      [NativeCall.getLoadedPluginsNative])
  else
    (Except.error notInitializedMsg, st, [])

/-- `getKnownPlugins()` (src/index.js:210-217). -/
def getKnownPlugins (st : BridgeState) (env : NativeEnv) :
    Except String (List String) × BridgeState × List NativeCall :=
  if st.isInitialized then
    (Except.ok (convertCStringArrayToJS env.knownPtr), st,
      [NativeCall.getKnownPluginsNative])
  else
    (Except.error notInitializedMsg, st, [])

/-- `getPluginStatus()` (src/index.js:222-227): composes the two getters; an
exception from either propagates. -/
def getPluginStatus (st : BridgeState) (env : NativeEnv) :
    Except String (List String × List String) × BridgeState × List NativeCall :=
  match getLoadedPlugins st env with
  | (Except.error e, st1, tr1) => (Except.error e, st1, tr1)
  | (Except.ok l, st1, tr1) =>
      match getKnownPlugins st1 env with
      | (Except.error e, st2, tr2) => (Except.error e, st2, tr1 ++ tr2)
      | (Except.ok k, st2, tr2) => (Except.ok (l, k), st2, tr1 ++ tr2)

/-- Plugin binary path `<pluginsDir>/<name>_plugin<ext>` (src/index.js:254). -/
def pluginPath (env : NativeEnv) (name : String) : String :=
  env.pluginsDir ++ "/" ++ name ++ "_plugin" ++ env.libExt

/-- `processPlugin(name)` (src/index.js:233-258): guard, resolve path, invoke
the native processing call, coerce the nullable string result to a boolean. -/
def processPlugin (st : BridgeState) (env : NativeEnv) (name : String) :
    Except String Bool × BridgeState × List NativeCall :=
  if st.isInitialized then
    let path := pluginPath env name
    match env.processNative path with
    | Except.error e => (Except.error e, st, [NativeCall.processPluginNative path])
    | Except.ok res =>
        (Except.ok (jsTruthyOptString res), st, [NativeCall.processPluginNative path])
  else
    (Except.error notInitializedMsg, st, [])

/-- `loadPlugin(name)` (src/index.js:264-271): boolean success is
`result === 1`. -/
def loadPlugin (st : BridgeState) (env : NativeEnv) (name : String) :
    Except String Bool × BridgeState × List NativeCall :=
  if st.isInitialized then
    match env.loadNative name with
    | Except.error e => (Except.error e, st, [NativeCall.loadPluginNative name])
    | Except.ok i => (Except.ok (i == 1), st, [NativeCall.loadPluginNative name])
  else
    (Except.error notInitializedMsg, st, [])

/-- `unloadPlugin(name)` (src/index.js:277-284). -/
def unloadPlugin (st : BridgeState) (env : NativeEnv) (name : String) :
    Except String Bool × BridgeState × List NativeCall :=
  if st.isInitialized then
    match env.unloadNative name with
    | Except.error e => (Except.error e, st, [NativeCall.unloadPluginNative name])
    | Except.ok i => (Except.ok (i == 1), st, [NativeCall.unloadPluginNative name])
  else
    (Except.error notInitializedMsg, st, [])

/-- `processAndLoadPlugin(name)` (src/index.js:290-302): process, throw
`Failed to process plugin: <name>` on false (stopping before any load
attempt), then load, throw `Failed to load plugin: <name>` on false, else
return true. -/
def processAndLoadPlugin (st : BridgeState) (env : NativeEnv) (name : String) :
    Except String Bool × BridgeState × List NativeCall :=
  match processPlugin st env name with
  | (Except.error e, st1, tr1) => (Except.error e, st1, tr1)
  | (Except.ok false, st1, tr1) =>
      (Except.error ("Failed to process plugin: " ++ name), st1, tr1)
  | (Except.ok true, st1, tr1) =>
      match loadPlugin st1 env name with
      | (Except.error e, st2, tr2) => (Except.error e, st2, tr1 ++ tr2)
      | (Except.ok false, st2, tr2) =>
          (Except.error ("Failed to load plugin: " ++ name), st2, tr1 ++ tr2)
      | (Except.ok true, st2, tr2) => (Except.ok true, st2, tr1 ++ tr2)

/-- One entry of the per-name result record built by
`processAndLoadPlugins` (src/index.js:308-333).  `loaded = none` models the
absence of the `loaded` field on the JS object. -/
structure BatchEntry where
  processed : Bool
  loaded : Option Bool
  error : Option String
deriving DecidableEq

/-- The JS results object, as a partial map from plugin name to entry. -/
def ResultsMap : Type := String → Option BatchEntry

/-- `results[name] = entry` on a JS object. -/
def updateResults (m : ResultsMap) (k : String) (e : BatchEntry) : ResultsMap :=
  fun k2 => if k2 = k then some e else m k2

/-- First loop of `processAndLoadPlugins` (src/index.js:312-318): try/catch
around `processPlugin` per name; a throw records `processed: false` plus the
error message; the batch never aborts. -/
def processPhase (st : BridgeState) (env : NativeEnv) :
    List String → ResultsMap → List NativeCall → ResultsMap × List NativeCall
  | [], m, tr => (m, tr)
  | n :: rest, m, tr =>
      match processPlugin st env n with
      | (Except.ok b, _, t) =>
          processPhase st env rest (updateResults m n ⟨b, none, none⟩) (tr ++ t)
      | (Except.error msg, _, t) =>
          processPhase st env rest (updateResults m n ⟨false, none, some msg⟩) (tr ++ t)

/-- Second loop of `processAndLoadPlugins` (src/index.js:321-330): for each
name whose entry has `processed` true, try/catch around `loadPlugin`, setting
the `loaded` field (and `error` on a throw).  Reading a missing entry would be
a TypeError in JS; that is unreachable because the first loop populated every
name. -/
def loadPhase (st : BridgeState) (env : NativeEnv) :
    List String → ResultsMap → List NativeCall →
      Except String (ResultsMap × List NativeCall)
  | [], m, tr => Except.ok (m, tr)
  | n :: rest, m, tr =>
      match m n with
      | none => Except.error "TypeError: cannot read properties of undefined"
      | some e =>
          if e.processed then
            match loadPlugin st env n with
            | (Except.ok b, _, t) =>
                loadPhase st env rest (updateResults m n { e with loaded := some b }) (tr ++ t)
            | (Except.error msg, _, t) =>
                loadPhase st env rest
                  (updateResults m n { e with loaded := some false, error := some msg }) (tr ++ t)
          else
            loadPhase st env rest m tr

/-- `processAndLoadPlugins(names)` (src/index.js:308-333): process all names
first, then attempt load only for names that processed. -/
def processAndLoadPlugins (st : BridgeState) (env : NativeEnv)
    (names : List String) : Except String (ResultsMap × List NativeCall) :=
  let p := processPhase st env names (fun _ => none) []
  loadPhase st env names p.1 p.2

/-- `callPluginMethodAsync` (src/index.js:342-361): guard, make a fresh id
(the nondeterministic generator is modelled by the explicit `newId`), wrap the
user callback in an FFI dispatcher, record the pending call in
`this.callbacks`, and issue the native async call. -/
def callPluginMethodAsync (st : BridgeState) (plugin method params : String)
    (cb : UserCB) (newId : String) :
    Except String String × BridgeState × List NativeCall :=
  if st.isInitialized then
    (Except.ok newId,
      { st with callbacks := setAssoc st.callbacks newId cb },
      [NativeCall.callPluginMethodAsyncNative plugin method params newId])
  else
    (Except.error notInitializedMsg, st, [])

/-- `registerEventListener` (src/index.js:369-392). -/
def registerEventListener (st : BridgeState) (plugin event : String)
    (cb : UserCB) (newId : String) :
    Except String String × BridgeState × List NativeCall :=
  if st.isInitialized then
    (Except.ok newId,
      { st with eventListeners := setAssoc st.eventListeners newId ⟨plugin, event, cb⟩ },
      [NativeCall.registerEventListenerNative plugin event newId])
  else
    (Except.error notInitializedMsg, st, [])

/-- `startEventProcessing(interval)` (src/index.js:398-410): errors only when
the interval is already running; there is no initialization guard.  Scheduling
the interval invokes no native entry point by itself. -/
def startEventProcessing (st : BridgeState) :
    Except String Bool × BridgeState :=
  if st.eventProcessingInterval then
    (Except.error "Event processing is already running", st)
  else
    (Except.ok true, { st with eventProcessingInterval := true })

/-- `stopEventProcessing()` (src/index.js:415-422). -/
def stopEventProcessing (st : BridgeState) : Bool × BridgeState :=
  if st.eventProcessingInterval then
    (true, { st with eventProcessingInterval := false })
  else
    (false, st)

/-- Body of the interval tick scheduled by `startEventProcessing`
(src/index.js:403-407): `if (this.LogosCore) logos_core_process_events()`. -/
def eventProcessingTickBody (st : BridgeState) : List NativeCall :=
  if st.hasCore then [NativeCall.processEvents] else []

/-- One scheduler tick: the body runs only while the interval is active. -/
def eventTick (st : BridgeState) : List NativeCall :=
  if st.eventProcessingInterval then eventProcessingTickBody st else []

/-- `exec()` (src/index.js:427-433). -/
def exec (st : BridgeState) (env : NativeEnv) :
    Except String Int × BridgeState × List NativeCall :=
  if st.isInitialized then
    (Except.ok env.execResult, st, [NativeCall.coreExec])
  else
    (Except.error notInitializedMsg, st, [])

/-- `cleanup()` (src/index.js:438-451): stop the pump, issue the native
cleanup when a core handle is present, clear both callback maps, reset the
lifecycle flags.  Note that `this.LogosCore` itself is NOT cleared. -/
def cleanup (st : BridgeState) : BridgeState × List NativeCall :=
  let st1 := (stopEventProcessing st).2
  let tr := if st1.hasCore then [NativeCall.coreCleanup] else []
  ({ st1 with
      callbacks := [], eventListeners := [],
      isInitialized := false, isStarted := false }, tr)

/-- A native delivery to the dispatcher closure bound to a callback id: the
closure reads no instance state and deletes nothing, so the bridge state is
returned unchanged (src/index.js:488-513 touch only local variables). -/
def nativeDeliverCall (st : BridgeState) (cb : UserCB) (callbackId : String)
    (parse : String → Option JsonValue) (d : FFIDelivery) :
    BridgeState × List Invocation × List String :=
  let r := ffiCallbackDispatch cb callbackId parse d
  (st, r.1, r.2.1)

/-- `decapitalize` inside `_createReflectivePluginProxy` (src/index.js:527):
lower-case the first character, keep the rest. -/
def decapitalize (s : String) : String :=
  match s.data with
  | [] => s
  | c :: rest => String.mk (c.toLower :: rest)

/-- `property.startsWith('on')` (src/index.js:550). -/
def startsWithOn (s : String) : Bool :=
  match s.data with
  | 'o' :: 'n' :: _ => true
  | _ => false

/-- `property.slice(n)` on a JS string. -/
def sliceFrom (s : String) (n : Nat) : String :=
  String.mk (s.data.drop n)

/-- What a property access on the reflective plugin proxy resolves to
(src/index.js:538-583). -/
inductive ProxyMember where
  /-- the `pluginName` introspection property: the plugin name string. -/
  | nameValue (s : String)
  /-- the `toString` property: a function returning this fixed rendering. -/
  | toStringFn (s : String)
  /-- JS `undefined`. -/
  | undef
  /-- an event-subscription factory bound to this event name. -/
  | eventFactory (eventName : String)
  /-- an async method-invocation function bound to this method name. -/
  | methodFn (methodName : String)
deriving DecidableEq

/-- The `get` trap of `_createReflectivePluginProxy` for a string property
(src/index.js:539-583), rule for rule: `pluginName`, `toString`, the `then`
anti-thenable guard, the `on<Event>` subscription shape, and the method-call
fallthrough. -/
def proxyGet (pluginName property : String) : ProxyMember :=
  if property = "pluginName" then ProxyMember.nameValue pluginName
  else if property = "toString" then
    ProxyMember.toStringFn ("[LogosPluginProxy " ++ pluginName ++ "]")
  else if property = "then" then ProxyMember.undef
  else if startsWithOn property = true ∧ property.length > 2 then
    ProxyMember.eventFactory (decapitalize (sliceFrom property 2))
  else ProxyMember.methodFn property

/-- The argument a proxy event listener is invoked with. -/
inductive ListenerArg where
  /-- the decoded event payload, forwarded on a success delivery. -/
  | payload (m : MsgPayload)
  /-- the `{error: true, message}` wrapper used on a failure delivery. -/
  | errorWrapped (m : MsgPayload)
deriving DecidableEq

/-- The success/failure branch of the proxy event wrapper
(src/index.js:558-563): forward the parsed payload on success, wrap it in
`{error: true, message}` on failure. -/
def eventWrapper (success : Bool) (message : MsgPayload) : ListenerArg :=
  if success then ListenerArg.payload message else ListenerArg.errorWrapped message

/-- A user event listener: identity plus behavior on the single argument the
proxy wrapper passes it (it may throw). -/
structure ListenerCB where
  hid : Nat
  run : ListenerArg → Except String Unit

/-- The callback the `on<Event>` factory hands to `registerEventListener`
(src/index.js:556-564): it receives `(success, message)` from the FFI
dispatcher and invokes the user listener with the wrapped argument. -/
def wrapEventListener (listener : ListenerCB) : UserCB :=
  ⟨listener.hid, fun success message => listener.run (eventWrapper success message)⟩

/-- A JavaScript value as seen by `_inferTypeAndValue`.  Numbers are idealized
as rationals (`Number.isInteger` becomes `den = 1`).  For values outside the
primitive cases, the outcomes of the JSON.stringify attempt and of `String()`
— both JS builtins applied to the value — are carried as data:
`stringifyOk = false` models `JSON.stringify` throwing. -/
inductive JSValue where
  | vNull
  | vUndefined
  | vBool (b : Bool)
  | vNumber (q : ℚ)
  | vString (s : String)
  | vOther (stringifyOk : Bool) (jsonText : String) (strText : String)
deriving DecidableEq

/-- Digits after the decimal point of `num / den` (0 < num < den), most
significant first; `fuel` bounds the expansion (binary-float fractions always
terminate well within it). -/
def fracDigits : Nat → Nat → Nat → List Char
  | 0, _, _ => []
  | _ + 1, 0, _ => []
  | fuel + 1, num, den =>
      let d := num * 10 / den
      let r := num * 10 % den
      Char.ofNat (48 + d) :: fracDigits fuel r den

/-- `String(x)` on an (idealized, exact-rational) JS number: sign, integer
part, and fractional digits when nonzero. -/
def jsStringOfRat (q : ℚ) : String :=
  let sign := if q.num < 0 then "-" else ""
  let n := q.num.natAbs
  let ip := n / q.den
  let rem := n % q.den
  if rem = 0 then sign ++ toString ip
  else sign ++ toString ip ++ "." ++ String.mk (fracDigits 1200 rem q.den)

/-- The `{type, value}` pair produced per argument. -/
structure TypedValue where
  type : String
  value : String
deriving DecidableEq

/-- `_inferTypeAndValue` (src/index.js:587-610), branch for branch:
null/undefined, boolean, number split on `Number.isInteger`, string, and the
stringify fallback with its catch. -/
def inferTypeAndValue : JSValue → TypedValue
  | JSValue.vNull => ⟨"string", ""⟩
  | JSValue.vUndefined => ⟨"string", ""⟩
  | JSValue.vBool b => ⟨"bool", if b then "true" else "false"⟩
  | JSValue.vNumber q =>
      if q.den = 1 then ⟨"int", jsStringOfRat q⟩
      else ⟨"double", jsStringOfRat q⟩
  | JSValue.vString s => ⟨"string", s⟩
  | JSValue.vOther ok jsonText strText =>
      if ok then ⟨"string", jsonText⟩ else ⟨"string", strText⟩

/-- One encoded parameter of `makeParamsJson` (src/index.js:529-532):
`{name: "arg<index>", value, type}`. -/
structure ParamRec where
  name : String
  value : String
  type : String
deriving DecidableEq

/-- `toParam` of `makeParamsJson` (src/index.js:529-532). -/
def toParam (arg : JSValue) (index : Nat) : ParamRec :=
  let inferred := inferTypeAndValue arg
  ⟨"arg" ++ toString index, inferred.value, inferred.type⟩

/-! Concrete fixtures used by witnesses and counterexamples. -/

/-- A bridge constructed with `autoInit: false` and never initialized. -/
def stUninit : BridgeState := ⟨false, false, false, false, [], []⟩

/-- A bridge right after a successful `init()`. -/
def stInit : BridgeState := ⟨true, false, false, true, [], []⟩

/-- A user callback that never throws. -/
def cb0 : UserCB := ⟨0, fun _ _ => Except.ok ()⟩

/-- A proxy event listener that never throws. -/
def listener0 : ListenerCB := ⟨0, fun _ => Except.ok ()⟩

/-- A parse function on which every decode attempt fails (non-JSON payloads). -/
def parseNone : String → Option JsonValue := fun _ => none

/-- A successful native delivery carrying the text `ok`. -/
def d1 : FFIDelivery := ⟨1, "ok"⟩

/-- A native environment in which every operation succeeds. -/
def envW : NativeEnv :=
  ⟨Except.ok (), Except.ok (), "plugins", ".so",
    fun _ => Except.ok (some "handled"),
    fun _ => Except.ok 1,
    fun _ => Except.ok 1,
    some [some "chat", none],
    none,
    0⟩

/-- The rational 3.14 (a non-integral JS number). -/
def qPi : ℚ := Rat.mk' 157 50 (by norm_num) (by norm_num)

/-- A native environment in which processing any plugin is rejected (the
native processing call returns null). -/
def envFailProc : NativeEnv := { envW with processNative := fun _ => Except.ok none }

/-- A native environment for the batch example: processing plugin `b` is
rejected, everything else succeeds. -/
def envBatch : NativeEnv :=
  { envW with processNative := fun path =>
      if path = "plugins/b_plugin.so" then Except.ok none
      else Except.ok (some "ok") }

/-- The entry the first loop of `processAndLoadPlugins` records for a name:
the processed flag on a normal return, `processed: false` plus the message on
a throw. -/
def procEntry (st : BridgeState) (env : NativeEnv) (n : String) : BatchEntry :=
  match (processPlugin st env n).1 with
  | Except.ok b => ⟨b, none, none⟩
  | Except.error msg => ⟨false, none, some msg⟩

/-- The entry the second loop of `processAndLoadPlugins` writes for a name
whose entry was processed: the load outcome on a normal return, `loaded:
false` plus the message on a throw. -/
def loadUpdatedEntry (st : BridgeState) (env : NativeEnv) (n : String)
    (e : BatchEntry) : BatchEntry :=
  match (loadPlugin st env n).1 with
  | Except.ok b => { e with loaded := some b }
  | Except.error msg => { e with loaded := some false, error := some msg }

/-- Claim C10: accessing the `then` property on the reflective plugin proxy
yields `undefined`, never a synthesized method-call function, so the proxy is
not a thenable and awaiting it cannot trigger a native invocation named
`then`. -/
theorem proxy_then_is_undefined (p : String) :
    proxyGet p "then" = ProxyMember.undef ∧
    ∀ m : String, proxyGet p "then" ≠ ProxyMember.methodFn m := by
  refine ⟨rfl, ?_⟩
  intro m h
  exact ProxyMember.noConfusion h

/-- Witness for C10 at the concrete plugin name `chat`. -/
theorem proxy_then_is_undefined_witness :
    proxyGet "chat" "then" = ProxyMember.undef :=
  (proxy_then_is_undefined "chat").1

/-- Claim C4: the per-argument `{type, value}` inference of
`_inferTypeAndValue` — booleans become `bool` with `"true"`/`"false"`,
integral numbers become `int` with their stringification, non-integral
numbers become `double`, strings pass through as `string`, null and undefined
become the empty `string`, and any other value becomes `string` with its JSON
text, or its `String()` rendering when JSON serialization throws. -/
theorem inferTypeAndValue_spec :
    (∀ b, inferTypeAndValue (JSValue.vBool b) =
      ⟨"bool", if b then "true" else "false"⟩) ∧
    (∀ q : ℚ, q.den = 1 →
      inferTypeAndValue (JSValue.vNumber q) = ⟨"int", jsStringOfRat q⟩) ∧
    (∀ q : ℚ, q.den ≠ 1 →
      inferTypeAndValue (JSValue.vNumber q) = ⟨"double", jsStringOfRat q⟩) ∧
    (∀ s, inferTypeAndValue (JSValue.vString s) = ⟨"string", s⟩) ∧
    inferTypeAndValue JSValue.vNull = ⟨"string", ""⟩ ∧
    inferTypeAndValue JSValue.vUndefined = ⟨"string", ""⟩ ∧
    (∀ jt stx, inferTypeAndValue (JSValue.vOther true jt stx) = ⟨"string", jt⟩) ∧
    (∀ jt stx, inferTypeAndValue (JSValue.vOther false jt stx) = ⟨"string", stx⟩) := by
  refine ⟨fun b => rfl, fun q h => ?_, fun q h => ?_, fun s => rfl, rfl, rfl,
    fun jt stx => rfl, fun jt stx => rfl⟩
  · simp [inferTypeAndValue, h]
  · simp [inferTypeAndValue, h]

/-- Witness for C4 at the spec's own examples: `42` is typed `int` and
rendered `"42"`, while `3.14` is typed `double` and rendered `"3.14"`. -/
theorem inferTypeAndValue_spec_witness :
    inferTypeAndValue (JSValue.vNumber 42) = ⟨"int", "42"⟩ ∧
    inferTypeAndValue (JSValue.vNumber qPi) = ⟨"double", "3.14"⟩ := by
  constructor
  · have h := inferTypeAndValue_spec.2.1 42 (by decide)
    rw [h]
    decide
  · have h := inferTypeAndValue_spec.2.2.1 qPi (by decide)
    rw [h]
    decide

/-- Claim C8: the dispatcher wrapper created by `_createFFICallback` catches
anything a user handler throws — nothing ever propagates out of the FFI
callback — the handler is still invoked exactly once per delivery, and a
throwing handler does not prevent subsequent deliveries from being
dispatched (every delivery in a stream produces its invocation). -/
theorem dispatcher_isolates_user_exceptions :
    (∀ (cb : UserCB) (id : String) (parse : String → Option JsonValue)
        (d : FFIDelivery),
      (ffiCallbackDispatch cb id parse d).2.2 = Except.ok ()) ∧
    (∀ (cb : UserCB) (id : String) (parse : String → Option JsonValue)
        (d : FFIDelivery),
      (ffiCallbackDispatch cb id parse d).1 =
        [⟨cb.hid, d.result == 1, decodeMessage parse d.message⟩]) ∧
    (∀ (parse : String → Option JsonValue)
        (items : List (UserCB × String × FFIDelivery)),
      (dispatchSeq parse items).1.length = items.length) := by
  refine ⟨fun cb id parse d => ?_, fun cb id parse d => ?_, fun parse items => ?_⟩
  · unfold ffiCallbackDispatch ffiCallbackTry
    cases h : cb.run (d.result == 1) (decodeMessage parse d.message) <;> simp [h]
  · unfold ffiCallbackDispatch ffiCallbackTry
    cases h : cb.run (d.result == 1) (decodeMessage parse d.message) <;> simp [h]
  · induction items with
    | nil => rfl
    | cons item rest ih =>
        obtain ⟨cb, id, d⟩ := item
        have h1 : (ffiCallbackDispatch cb id parse d).1 =
            [⟨cb.hid, d.result == 1, decodeMessage parse d.message⟩] := by
          unfold ffiCallbackDispatch ffiCallbackTry
          cases h : cb.run (d.result == 1) (decodeMessage parse d.message) <;> simp [h]
        simp [dispatchSeq, h1, ih]

/-- Claim C9: converting a native nullable string-array pointer yields the
empty list for a null pointer, and otherwise exactly the strings at
successive offsets up to but not including the first null sentinel; the
initialized getters return exactly this conversion of the native pointer. -/
theorem convertCStringArray_spec :
    convertCStringArrayToJS none = [] ∧
    (∀ (strs : List String) (rest : List (Option String)),
      convertCStringArrayToJS (some (strs.map some ++ none :: rest)) = strs) ∧
    (∀ (st : BridgeState) (env : NativeEnv), st.isInitialized = true →
      (getLoadedPlugins st env).1 =
        Except.ok (convertCStringArrayToJS env.loadedPtr) ∧
      (getKnownPlugins st env).1 =
        Except.ok (convertCStringArrayToJS env.knownPtr)) := by
  refine ⟨rfl, fun strs rest => ?_, fun st env h => ?_⟩
  · induction strs with
    | nil => rfl
    | cons s more ih => simp [convertCStringArrayToJS, readUntilNull] at ih ⊢; exact ih
  · constructor <;> simp [getLoadedPlugins, getKnownPlugins, h]

/-- Witness for C9: on the initialized bridge and an environment whose native
loaded-plugins pointer holds `["chat"]` before the sentinel, the getter
returns `["chat"]`; the null known-plugins pointer converts to `[]`. -/
theorem convertCStringArray_spec_witness :
    (getLoadedPlugins stInit envW).1 = Except.ok ["chat"] ∧
    (getKnownPlugins stInit envW).1 = Except.ok [] := by
  have h := convertCStringArray_spec.2.2 stInit envW rfl
  exact ⟨h.1, h.2⟩

/-- Claim C2 counterexample: on a never-initialized bridge,
`startEventProcessing` does not throw a lifecycle error — it succeeds and
returns `true` — refuting the claim that every public bridge method that
issues a native call, including `startEventProcessing`, throws when the
bridge is not initialized. -/
theorem startEventProcessing_no_guard_cex :
    stUninit.isInitialized = false ∧
    (startEventProcessing stUninit).1 = Except.ok true :=
  ⟨rfl, rfl⟩

/-- Claim C2 (amended): every public bridge method that directly issues a
native call — `start`, `getLoadedPlugins`, `getKnownPlugins`,
`getPluginStatus`, `processPlugin`, `loadPlugin`, `unloadPlugin`,
`processAndLoadPlugin`, `callPluginMethodAsync`, `registerEventListener`,
`exec`, but not `startEventProcessing`, which performs no initialization
check — throws a lifecycle error before any native entry point is invoked
when the bridge is not initialized; and calling `init()` while already
initialized throws a lifecycle error with no native call. -/
theorem bridge_lifecycle_guards (st st2 : BridgeState) (env : NativeEnv)
    (plugin method params event name newId : String) (cb : UserCB)
    (hU : st.isInitialized = false) (hI : st2.isInitialized = true) :
    start st = (Except.error "LogosAPI must be initialized before starting", st, []) ∧
    getLoadedPlugins st env = (Except.error notInitializedMsg, st, []) ∧
    getKnownPlugins st env = (Except.error notInitializedMsg, st, []) ∧
    getPluginStatus st env = (Except.error notInitializedMsg, st, []) ∧
    processPlugin st env name = (Except.error notInitializedMsg, st, []) ∧
    loadPlugin st env name = (Except.error notInitializedMsg, st, []) ∧
    unloadPlugin st env name = (Except.error notInitializedMsg, st, []) ∧
    processAndLoadPlugin st env name = (Except.error notInitializedMsg, st, []) ∧
    callPluginMethodAsync st plugin method params cb newId =
      (Except.error notInitializedMsg, st, []) ∧
    registerEventListener st plugin event cb newId =
      (Except.error notInitializedMsg, st, []) ∧
    exec st env = (Except.error notInitializedMsg, st, []) ∧
    (init st2 env).1 = Except.error "LogosAPI is already initialized" ∧
    (init st2 env).2.2 = [] := by
  refine ⟨?_, ?_, ?_, ?_, ?_, ?_, ?_, ?_, ?_, ?_, ?_, ?_, ?_⟩
  · simp [start, hU]
  · simp [getLoadedPlugins, hU]
  · simp [getKnownPlugins, hU]
  · simp [getPluginStatus, getLoadedPlugins, hU]
  · simp [processPlugin, hU]
  · simp [loadPlugin, hU]
  · simp [unloadPlugin, hU]
  · simp [processAndLoadPlugin, processPlugin, hU]
  · simp [callPluginMethodAsync, hU]
  · simp [registerEventListener, hU]
  · simp [exec, hU]
  · simp [init, hI]
  · simp [init, hI]

/-- Witness for C2 on the concrete uninitialized and initialized states. -/
theorem bridge_lifecycle_guards_witness :
    start stUninit =
      (Except.error "LogosAPI must be initialized before starting", stUninit, []) ∧
    (init stInit envW).1 = Except.error "LogosAPI is already initialized" := by
  have h := bridge_lifecycle_guards stUninit stInit envW "p" "m" "[]" "e" "n" "id" cb0
    rfl rfl
  exact ⟨h.1, h.2.2.2.2.2.2.2.2.2.2.2.1⟩

/-- Claim C3 (code bug): after `cleanup()` the bridge is uninitialized and
the guarded methods do fail fast, but `this.LogosCore` is never cleared, so
`startEventProcessing` succeeds after cleanup and its very next tick invokes
the native `logos_core_process_events` entry point on the dangling handle —
contradicting the requirement that every native-call attempt after cleanup
fails fast without touching the native handle. -/
theorem cleanup_then_pump_touches_native_handle :
    (cleanup stInit).1.isInitialized = false ∧
    (cleanup stInit).2 = [NativeCall.coreCleanup] ∧
    (getLoadedPlugins (cleanup stInit).1 envW).1 = Except.error notInitializedMsg ∧
    (startEventProcessing (cleanup stInit).1).1 = Except.ok true ∧
    eventTick (startEventProcessing (cleanup stInit).1).2 = [NativeCall.processEvents] :=
  ⟨rfl, rfl, rfl, rfl, rfl⟩

/-- Claim C6: `processAndLoadPlugin` throws an error carrying the plugin name
when the process step returns false — stopping immediately, with no load
attempt in the native trace — or when the load step returns false; when both
steps succeed it returns true. -/
theorem processAndLoadPlugin_spec (st : BridgeState) (env : NativeEnv)
    (name : String) (hInit : st.isInitialized = true) :
    (∀ res, env.processNative (pluginPath env name) = Except.ok res →
      jsTruthyOptString res = false →
      processAndLoadPlugin st env name =
        (Except.error ("Failed to process plugin: " ++ name), st,
          [NativeCall.processPluginNative (pluginPath env name)])) ∧
    (∀ res i, env.processNative (pluginPath env name) = Except.ok res →
      jsTruthyOptString res = true →
      env.loadNative name = Except.ok i → (i == 1) = false →
      processAndLoadPlugin st env name =
        (Except.error ("Failed to load plugin: " ++ name), st,
          [NativeCall.processPluginNative (pluginPath env name),
            NativeCall.loadPluginNative name])) ∧
    (∀ res i, env.processNative (pluginPath env name) = Except.ok res →
      jsTruthyOptString res = true →
      env.loadNative name = Except.ok i → (i == 1) = true →
      processAndLoadPlugin st env name =
        (Except.ok true, st,
          [NativeCall.processPluginNative (pluginPath env name),
            NativeCall.loadPluginNative name])) := by
  refine ⟨fun res h1 h2 => ?_, fun res i h1 h2 h3 h4 => ?_, fun res i h1 h2 h3 h4 => ?_⟩
  · simp [processAndLoadPlugin, processPlugin, hInit, h1, h2]
  · simp [processAndLoadPlugin, processPlugin, loadPlugin, hInit, h1, h2, h3, h4]
  · simp [processAndLoadPlugin, processPlugin, loadPlugin, hInit, h1, h2, h3, h4]

/-- Witness for C6: with the native side rejecting processing of `chat`, the
composite throws `Failed to process plugin: chat` and the native trace shows
the load step was never attempted. -/
theorem processAndLoadPlugin_spec_witness :
    processAndLoadPlugin stInit envFailProc "chat" =
      (Except.error "Failed to process plugin: chat", stInit,
        [NativeCall.processPluginNative "plugins/chat_plugin.so"]) := by
  have h := (processAndLoadPlugin_spec stInit envFailProc "chat" rfl).1 none rfl rfl
  exact h

/-- `Map.set` followed by `Map.get` at the same key finds the new value. -/
theorem lookupAssoc_setAssoc_self {α : Type} (m : List (String × α))
    (k : String) (v : α) : lookupAssoc (setAssoc m k v) k = some v := by
  induction m with
  | nil => simp [setAssoc, lookupAssoc]
  | cons p rest ih =>
      obtain ⟨k2, w⟩ := p
      by_cases h : k2 = k
      · simp [setAssoc, h, lookupAssoc]
      · simp [setAssoc, h, lookupAssoc, ih]

/-- The dispatcher invokes its user handler exactly once per delivery. -/
theorem ffiCallbackDispatch_invocations (cb : UserCB) (id : String)
    (parse : String → Option JsonValue) (d : FFIDelivery) :
    (ffiCallbackDispatch cb id parse d).1 =
      [⟨cb.hid, d.result == 1, decodeMessage parse d.message⟩] := by
  unfold ffiCallbackDispatch ffiCallbackTry
  cases h : cb.run (d.result == 1) (decodeMessage parse d.message) <;> simp [h]

/-- Claim C1 counterexample: for the CallId `cb1` returned by
`callPluginMethodAsync`, injecting the same successful delivery twice into
the dispatcher fires the user handler twice (two invocations of handler 0),
and after a delivery the pending-call record for `cb1` is still present in
the correlator's state — refuting both the at-most-once guarantee and the
removal of the PendingCall after firing. -/
theorem double_delivery_not_noop_cex :
    (deliverMany cb0 "cb1" parseNone [d1, d1]).1.map Invocation.hid = [0, 0] ∧
    (deliverMany cb0 "cb1" parseNone [d1, d1]).1.length = 2 ∧
    (lookupAssoc
      (nativeDeliverCall
        (callPluginMethodAsync stInit "chat" "send" "[]" cb0 "cb1").2.1
        cb0 "cb1" parseNone d1).1.callbacks "cb1").isSome = true :=
  ⟨rfl, rfl, rfl⟩

/-- Claim C1 (amended): for every CallId returned by `callPluginMethodAsync`,
every invocation of the native dispatcher bound to that CallId invokes the
user handler once — n deliveries fire the handler n times; there is no
at-most-once guard and a repeated delivery is not a no-op — and the
pending-call record is never removed on firing: deliveries leave the
correlator state unchanged, the record surviving until `cleanup()` clears the
whole map. -/
theorem pendingCall_never_removed_each_delivery_fires
    (st : BridgeState) (plugin method params : String) (cb : UserCB)
    (newId : String) (parse : String → Option JsonValue)
    (ds : List FFIDelivery) (hInit : st.isInitialized = true) :
    (callPluginMethodAsync st plugin method params cb newId).1 = Except.ok newId ∧
    lookupAssoc
      (callPluginMethodAsync st plugin method params cb newId).2.1.callbacks
      newId = some cb ∧
    (deliverMany cb newId parse ds).1.length = ds.length ∧
    (∀ inv ∈ (deliverMany cb newId parse ds).1, inv.hid = cb.hid) ∧
    (∀ d, (nativeDeliverCall
        (callPluginMethodAsync st plugin method params cb newId).2.1
        cb newId parse d).1 =
      (callPluginMethodAsync st plugin method params cb newId).2.1) ∧
    (cleanup (callPluginMethodAsync st plugin method params cb newId).2.1).1.callbacks
      = [] := by
  refine ⟨?_, ?_, ?_, ?_, fun d => rfl, ?_⟩
  · simp [callPluginMethodAsync, hInit]
  · simp only [callPluginMethodAsync, hInit, if_pos]
    exact lookupAssoc_setAssoc_self st.callbacks newId cb
  · induction ds with
    | nil => rfl
    | cons d rest ih =>
        simp [deliverMany, ffiCallbackDispatch_invocations, ih]
  · induction ds with
    | nil => intro inv h; exact absurd h (List.not_mem_nil inv)
    | cons d rest ih =>
        intro inv h
        simp only [deliverMany, ffiCallbackDispatch_invocations] at h
        rcases List.mem_append.mp h with h1 | h2
        · rcases List.mem_singleton.mp h1 with rfl
          rfl
        · exact ih inv h2
  · simp [callPluginMethodAsync, hInit, cleanup]

/-- Witness for C1 on concrete inputs: the call returns its fresh id and the
stored record is found. -/
theorem pendingCall_never_removed_witness :
    (callPluginMethodAsync stInit "chat" "send" "[]" cb0 "cb1").1 =
      Except.ok "cb1" ∧
    (deliverMany cb0 "cb1" parseNone [d1]).1.length = 1 := by
  have h := pendingCall_never_removed_each_delivery_fires stInit "chat" "send" "[]"
    cb0 "cb1" parseNone [d1] rfl
  exact ⟨h.1, h.2.2.1⟩

/-- Claim C7: a proxy property `on<Capitalized>` with a non-empty remainder
resolves to an event-subscription factory for the event name obtained by
decapitalizing the remainder; registering through it stores the listener
record under the fresh subscription id, which is returned; on each delivery
the listener receives the decoded payload for a success and the
`{error: true, message}` wrapper for a failure — a failure delivery can never
reach the listener as a bare success payload. -/
theorem proxy_event_subscription_spec (p : String) (c : Char) (t : List Char)
    (st : BridgeState) (L : ListenerCB) (newId : String)
    (_hUp : c.isUpper = true) (hInit : st.isInitialized = true) :
    proxyGet p ("on" ++ String.mk (c :: t)) =
      ProxyMember.eventFactory (decapitalize (String.mk (c :: t))) ∧
    (registerEventListener st p (decapitalize (String.mk (c :: t)))
      (wrapEventListener L) newId).1 = Except.ok newId ∧
    (∃ rec, lookupAssoc
        (registerEventListener st p (decapitalize (String.mk (c :: t)))
          (wrapEventListener L) newId).2.1.eventListeners newId = some rec ∧
      rec.pluginName = p ∧
      rec.eventName = decapitalize (String.mk (c :: t)) ∧
      rec.cb.hid = L.hid) ∧
    (∀ msg, (wrapEventListener L).run true msg =
      L.run (ListenerArg.payload msg)) ∧
    (∀ msg, (wrapEventListener L).run false msg =
      L.run (ListenerArg.errorWrapped msg)) ∧
    (∀ msg msg2, eventWrapper false msg ≠ ListenerArg.payload msg2) := by
  have hs : ("on" ++ String.mk (c :: t)) = String.mk ('o' :: 'n' :: c :: t) := rfl
  refine ⟨?_, ?_, ?_, fun msg => rfl, fun msg => rfl,
    fun msg msg2 h => ListenerArg.noConfusion h⟩
  · rw [hs]
    have h1 : ¬(String.mk ('o' :: 'n' :: c :: t) = "pluginName") := fun h =>
      absurd (congrArg (fun s => s.data.head?) h : some 'o' = some 'p') (by decide)
    have h2 : ¬(String.mk ('o' :: 'n' :: c :: t) = "toString") := fun h =>
      absurd (congrArg (fun s => s.data.head?) h : some 'o' = some 't') (by decide)
    have h3 : ¬(String.mk ('o' :: 'n' :: c :: t) = "then") := fun h =>
      absurd (congrArg (fun s => s.data.head?) h : some 'o' = some 't') (by decide)
    have h4 : startsWithOn (String.mk ('o' :: 'n' :: c :: t)) = true ∧
        (String.mk ('o' :: 'n' :: c :: t)).length > 2 := by
      refine ⟨rfl, ?_⟩
      show ('o' :: 'n' :: c :: t).length > 2
      simp
    rw [proxyGet, if_neg h1, if_neg h2, if_neg h3, if_pos h4]
    rfl
  · simp [registerEventListener, hInit]
  · refine ⟨⟨p, decapitalize (String.mk (c :: t)), wrapEventListener L⟩, ?_, rfl, rfl, rfl⟩
    simp only [registerEventListener, hInit, if_pos]
    exact lookupAssoc_setAssoc_self st.eventListeners newId _

/-- Witness for C7: `onMessage` on the `chat` proxy is the subscription
factory for event `message`, and registering through it on the initialized
bridge returns the fresh id. -/
theorem proxy_event_subscription_spec_witness :
    proxyGet "chat" "onMessage" = ProxyMember.eventFactory "message" ∧
    (registerEventListener stInit "chat" "message"
      (wrapEventListener listener0) "ev1").1 = Except.ok "ev1" := by
  have h := proxy_event_subscription_spec "chat" 'M' "essage".data stInit
    listener0 "ev1" (by decide) rfl
  exact ⟨h.1, h.2.1⟩

/-- Writing a key and reading it back. -/
theorem updateResults_self (m : ResultsMap) (k : String) (e : BatchEntry) :
    updateResults m k e k = some e := by
  simp [updateResults]

/-- Writing one key leaves every other key unchanged. -/
theorem updateResults_other (m : ResultsMap) (k k2 : String) (e : BatchEntry)
    (h : k2 ≠ k) : updateResults m k e k2 = m k2 := by
  simp [updateResults, h]

/-- The entry recorded by the first batch loop never has a `loaded` field. -/
theorem procEntry_loaded (st : BridgeState) (env : NativeEnv) (n : String) :
    (procEntry st env n).loaded = none := by
  rcases h : (processPlugin st env n).1 with msg | b <;> simp [procEntry, h]

/-- A rejected or throwing process step records `processed: false`. -/
theorem procEntry_processed_of_fail (st : BridgeState) (env : NativeEnv)
    (n : String)
    (h : (processPlugin st env n).1 = Except.ok false ∨
      ∃ msg, (processPlugin st env n).1 = Except.error msg) :
    (procEntry st env n).processed = false := by
  rcases h with h | ⟨msg, h⟩ <;> simp [procEntry, h]

/-- The second batch loop never changes the processed flag of an entry. -/
theorem loadUpdatedEntry_processed (st : BridgeState) (env : NativeEnv)
    (n : String) (e : BatchEntry) :
    (loadUpdatedEntry st env n e).processed = e.processed := by
  rcases h : (loadPlugin st env n).1 with msg | b <;> simp [loadUpdatedEntry, h]

/-- Every native call issued by `processPlugin` is a process-plugin call. -/
theorem processPlugin_trace_only (st : BridgeState) (env : NativeEnv) (n : String) :
    ∀ call ∈ (processPlugin st env n).2.2,
      ∃ path2, call = NativeCall.processPluginNative path2 := by
  intro call h
  unfold processPlugin at h
  by_cases hI : st.isInitialized = true
  · rcases henv : env.processNative (pluginPath env n) with msg | res <;>
      simp [hI, henv] at h <;> exact ⟨_, h⟩
  · simp [hI] at h

/-- Every native call issued by `loadPlugin` is a load-plugin call. -/
theorem loadPlugin_trace_only (st : BridgeState) (env : NativeEnv) (n : String) :
    ∀ call ∈ (loadPlugin st env n).2.2,
      ∃ nm, call = NativeCall.loadPluginNative nm := by
  intro call h
  unfold loadPlugin at h
  by_cases hI : st.isInitialized = true
  · rcases henv : env.loadNative n with msg | res <;>
      simp [hI, henv] at h <;> exact ⟨_, h⟩
  · simp [hI] at h

/-- Unfolding one step of the first batch loop: record the process outcome
for the head name and recurse. -/
theorem processPhase_step (st : BridgeState) (env : NativeEnv) (n : String)
    (rest : List String) (m : ResultsMap) (tr : List NativeCall) :
    processPhase st env (n :: rest) m tr =
      processPhase st env rest (updateResults m n (procEntry st env n))
        (tr ++ (processPlugin st env n).2.2) := by
  conv_lhs => rw [processPhase]
  rcases h : processPlugin st env n with ⟨r, st2, t⟩
  cases r <;> simp [h, procEntry]

/-- After the first batch loop the map holds the process outcome of every
listed name and is untouched elsewhere. -/
theorem processPhase_map (st : BridgeState) (env : NativeEnv) :
    ∀ (names : List String) (m : ResultsMap) (tr : List NativeCall) (k : String),
      (processPhase st env names m tr).1 k =
        if k ∈ names then some (procEntry st env k) else m k := by
  intro names
  induction names with
  | nil => intro m tr k; simp [processPhase]
  | cons n rest ih =>
      intro m tr k
      rw [processPhase_step, ih]
      by_cases hk : k ∈ rest
      · simp [hk, List.mem_cons]
      · by_cases hkn : k = n
        · subst hkn
          simp [hk, updateResults_self]
        · simp [hk, hkn, updateResults_other m n k _ hkn]

/-- The first batch loop only appends process-plugin calls to the trace. -/
theorem processPhase_trace (st : BridgeState) (env : NativeEnv) :
    ∀ (names : List String) (m : ResultsMap) (tr : List NativeCall),
      ∃ t, (processPhase st env names m tr).2 = tr ++ t ∧
        ∀ call ∈ t, ∃ path2, call = NativeCall.processPluginNative path2 := by
  intro names
  induction names with
  | nil => intro m tr; exact ⟨[], by simp [processPhase], by simp⟩
  | cons n rest ih =>
      intro m tr
      rw [processPhase_step]
      obtain ⟨t, ht, honly⟩ := ih (updateResults m n (procEntry st env n))
        (tr ++ (processPlugin st env n).2.2)
      refine ⟨(processPlugin st env n).2.2 ++ t, by rw [ht, List.append_assoc], ?_⟩
      intro call hc
      rcases List.mem_append.mp hc with h1 | h2
      · exact processPlugin_trace_only st env n call h1
      · exact honly call h2

/-- Unfolding one step of the second batch loop for a processed entry. -/
theorem loadPhase_step_processed (st : BridgeState) (env : NativeEnv)
    (n : String) (rest : List String) (m : ResultsMap) (tr : List NativeCall)
    (e : BatchEntry) (h : m n = some e) (hp : e.processed = true) :
    loadPhase st env (n :: rest) m tr =
      loadPhase st env rest (updateResults m n (loadUpdatedEntry st env n e))
        (tr ++ (loadPlugin st env n).2.2) := by
  conv_lhs => rw [loadPhase]
  rw [h]
  rcases hl : loadPlugin st env n with ⟨r, st2, t⟩
  cases r <;> simp [hp, hl, loadUpdatedEntry]

/-- Unfolding one step of the second batch loop for an unprocessed entry:
the name is skipped entirely. -/
theorem loadPhase_step_skip (st : BridgeState) (env : NativeEnv)
    (n : String) (rest : List String) (m : ResultsMap) (tr : List NativeCall)
    (e : BatchEntry) (h : m n = some e) (hp : e.processed = false) :
    loadPhase st env (n :: rest) m tr = loadPhase st env rest m tr := by
  conv_lhs => rw [loadPhase]
  rw [h]
  simp [hp]

/-- The empty second loop returns the map and trace unchanged. -/
theorem loadPhase_nil (st : BridgeState) (env : NativeEnv) (m : ResultsMap)
    (tr : List NativeCall) : loadPhase st env [] m tr = Except.ok (m, tr) := by
  rw [loadPhase]

/-- Reading a missing entry in the second loop is the JS TypeError. -/
theorem loadPhase_none (st : BridgeState) (env : NativeEnv) (n : String)
    (rest : List String) (m : ResultsMap) (tr : List NativeCall)
    (h : m n = none) :
    loadPhase st env (n :: rest) m tr =
      Except.error "TypeError: cannot read properties of undefined" := by
  conv_lhs => rw [loadPhase]
  rw [h]

/-- The second loop succeeds whenever every listed name has an entry. -/
theorem loadPhase_ok (st : BridgeState) (env : NativeEnv) :
    ∀ (names : List String) (m : ResultsMap) (tr : List NativeCall),
      (∀ n ∈ names, (m n).isSome = true) →
      ∃ p, loadPhase st env names m tr = Except.ok p := by
  intro names
  induction names with
  | nil => intro m tr _; exact ⟨(m, tr), loadPhase_nil st env m tr⟩
  | cons n rest ih =>
      intro m tr hall
      obtain ⟨e, he⟩ := Option.isSome_iff_exists.mp (hall n (List.mem_cons_self n rest))
      rcases Bool.eq_false_or_eq_true e.processed with hp | hp
      · rw [loadPhase_step_processed st env n rest m tr e he hp]
        apply ih
        intro k hk
        by_cases hkn : k = n
        · subst hkn; simp [updateResults_self]
        · rw [updateResults_other m n k _ hkn]
          exact hall k (List.mem_cons_of_mem n hk)
      · rw [loadPhase_step_skip st env n rest m tr e he hp]
        exact ih m tr (fun k hk => hall k (List.mem_cons_of_mem n hk))

/-- The second loop leaves entries of unlisted names unchanged. -/
theorem loadPhase_not_mem (st : BridgeState) (env : NativeEnv) :
    ∀ (names : List String) (m : ResultsMap) (tr : List NativeCall)
      (m2 : ResultsMap) (tr2 : List NativeCall),
      loadPhase st env names m tr = Except.ok (m2, tr2) →
      ∀ k, k ∉ names → m2 k = m k := by
  intro names
  induction names with
  | nil =>
      intro m tr m2 tr2 h k _
      rw [loadPhase_nil] at h
      obtain ⟨h1, h2⟩ := Prod.mk.injEq .. |>.mp (Except.ok.inj h)
      rw [← h1]
  | cons n rest ih =>
      intro m tr m2 tr2 h k hk
      have hkn : k ≠ n := fun e => hk (e ▸ List.mem_cons_self n rest)
      have hkr : k ∉ rest := fun e => hk (List.mem_cons_of_mem n e)
      rcases hmn : m n with _ | e
      · rw [loadPhase_none st env n rest m tr hmn] at h
        exact absurd h (by simp)
      · rcases Bool.eq_false_or_eq_true e.processed with hp | hp
        · rw [loadPhase_step_processed st env n rest m tr e hmn hp] at h
          rw [ih _ _ _ _ h k hkr, updateResults_other m n k _ hkn]
        · rw [loadPhase_step_skip st env n rest m tr e hmn hp] at h
          exact ih m tr m2 tr2 h k hkr

/-- The second loop never deletes an entry. -/
theorem loadPhase_isSome (st : BridgeState) (env : NativeEnv) :
    ∀ (names : List String) (m : ResultsMap) (tr : List NativeCall)
      (m2 : ResultsMap) (tr2 : List NativeCall),
      loadPhase st env names m tr = Except.ok (m2, tr2) →
      ∀ k, (m k).isSome = true → (m2 k).isSome = true := by
  intro names
  induction names with
  | nil =>
      intro m tr m2 tr2 h k hs
      rw [loadPhase_nil] at h
      obtain ⟨h1, h2⟩ := Prod.mk.injEq .. |>.mp (Except.ok.inj h)
      rw [← h1]; exact hs
  | cons n rest ih =>
      intro m tr m2 tr2 h k hs
      rcases hmn : m n with _ | e
      · rw [loadPhase_none st env n rest m tr hmn] at h
        exact absurd h (by simp)
      · rcases Bool.eq_false_or_eq_true e.processed with hp | hp
        · rw [loadPhase_step_processed st env n rest m tr e hmn hp] at h
          apply ih _ _ _ _ h k
          by_cases hkn : k = n
          · subst hkn; simp [updateResults_self]
          · rw [updateResults_other m n k _ hkn]; exact hs
        · rw [loadPhase_step_skip st env n rest m tr e hmn hp] at h
          exact ih m tr m2 tr2 h k hs

/-- The second loop never touches an entry whose processed flag is false. -/
theorem loadPhase_false_stable (st : BridgeState) (env : NativeEnv) :
    ∀ (names : List String) (m : ResultsMap) (tr : List NativeCall)
      (m2 : ResultsMap) (tr2 : List NativeCall),
      loadPhase st env names m tr = Except.ok (m2, tr2) →
      ∀ k e, m k = some e → e.processed = false → m2 k = some e := by
  intro names
  induction names with
  | nil =>
      intro m tr m2 tr2 h k e hke hpe
      rw [loadPhase_nil] at h
      obtain ⟨h1, h2⟩ := Prod.mk.injEq .. |>.mp (Except.ok.inj h)
      rw [← h1]; exact hke
  | cons n rest ih =>
      intro m tr m2 tr2 h k e hke hpe
      rcases hmn : m n with _ | en
      · rw [loadPhase_none st env n rest m tr hmn] at h
        exact absurd h (by simp)
      · rcases Bool.eq_false_or_eq_true en.processed with hp | hp
        · rw [loadPhase_step_processed st env n rest m tr en hmn hp] at h
          apply ih _ _ _ _ h k e _ hpe
          by_cases hkn : k = n
          · subst hkn
            rw [hmn] at hke
            obtain rfl : en = e := Option.some.inj hke
            rw [hp] at hpe
            exact Bool.noConfusion hpe
          · rw [updateResults_other m n k _ hkn]; exact hke
        · rw [loadPhase_step_skip st env n rest m tr en hmn hp] at h
          exact ih m tr m2 tr2 h k e hke hpe

/-- The second loop preserves the processed flag of every surviving entry. -/
theorem loadPhase_processed_stable (st : BridgeState) (env : NativeEnv) :
    ∀ (names : List String) (m : ResultsMap) (tr : List NativeCall)
      (m2 : ResultsMap) (tr2 : List NativeCall),
      loadPhase st env names m tr = Except.ok (m2, tr2) →
      ∀ k e2, m2 k = some e2 →
        ∃ e, m k = some e ∧ e2.processed = e.processed := by
  intro names
  induction names with
  | nil =>
      intro m tr m2 tr2 h k e2 hke
      rw [loadPhase_nil] at h
      obtain ⟨h1, h2⟩ := Prod.mk.injEq .. |>.mp (Except.ok.inj h)
      rw [← h1] at hke
      exact ⟨e2, hke, rfl⟩
  | cons n rest ih =>
      intro m tr m2 tr2 h k e2 hke
      rcases hmn : m n with _ | en
      · rw [loadPhase_none st env n rest m tr hmn] at h
        exact absurd h (by simp)
      · rcases Bool.eq_false_or_eq_true en.processed with hp | hp
        · rw [loadPhase_step_processed st env n rest m tr en hmn hp] at h
          obtain ⟨e3, h3, hpe⟩ := ih _ _ _ _ h k e2 hke
          by_cases hkn : k = n
          · subst hkn
            rw [updateResults_self] at h3
            rw [← Option.some.inj h3, loadUpdatedEntry_processed] at hpe
            exact ⟨en, hmn, hpe⟩
          · rw [updateResults_other m n k _ hkn] at h3
            exact ⟨e3, h3, hpe⟩
        · rw [loadPhase_step_skip st env n rest m tr en hmn hp] at h
          exact ih m tr m2 tr2 h k e2 hke

/-- If the load step for a listed name returns true, the surviving processed
entry for that name carries `loaded = true`. -/
theorem loadPhase_load_true (st : BridgeState) (env : NativeEnv) :
    ∀ (names : List String) (m : ResultsMap) (tr : List NativeCall)
      (m2 : ResultsMap) (tr2 : List NativeCall),
      loadPhase st env names m tr = Except.ok (m2, tr2) →
      ∀ n ∈ names, (loadPlugin st env n).1 = Except.ok true →
        ∀ e2, m2 n = some e2 → e2.processed = true → e2.loaded = some true := by
  intro names
  induction names with
  | nil => intro m tr m2 tr2 h n hn; exact absurd hn (List.not_mem_nil n)
  | cons x rest ih =>
      intro m tr m2 tr2 h n hn hload e2 he2 hpe2
      rcases hmx : m x with _ | ex
      · rw [loadPhase_none st env x rest m tr hmx] at h
        exact absurd h (by simp)
      · rcases Bool.eq_false_or_eq_true ex.processed with hp | hp
        · rw [loadPhase_step_processed st env x rest m tr ex hmx hp] at h
          by_cases hnr : n ∈ rest
          · exact ih _ _ _ _ h n hnr hload e2 he2 hpe2
          · have hnx : n = x := by
              rcases List.mem_cons.mp hn with h1 | h2
              · exact h1
              · exact absurd h2 hnr
            subst hnx
            have hpres := loadPhase_not_mem st env rest _ _ _ _ h n hnr
            rw [hpres, updateResults_self] at he2
            rw [← Option.some.inj he2]
            unfold loadUpdatedEntry
            rw [hload]
        · rw [loadPhase_step_skip st env x rest m tr ex hmx hp] at h
          by_cases hnr : n ∈ rest
          · exact ih m tr m2 tr2 h n hnr hload e2 he2 hpe2
          · have hnx : n = x := by
              rcases List.mem_cons.mp hn with h1 | h2
              · exact h1
              · exact absurd h2 hnr
            subst hnx
            have hst := loadPhase_false_stable st env rest m tr m2 tr2 h n ex hmx hp
            rw [hst] at he2
            obtain rfl : ex = e2 := Option.some.inj he2
            rw [hp] at hpe2
            exact Bool.noConfusion hpe2

/-- The second loop only appends load-plugin calls to the trace. -/
theorem loadPhase_trace (st : BridgeState) (env : NativeEnv) :
    ∀ (names : List String) (m : ResultsMap) (tr : List NativeCall)
      (m2 : ResultsMap) (tr2 : List NativeCall),
      loadPhase st env names m tr = Except.ok (m2, tr2) →
      ∃ t, tr2 = tr ++ t ∧ ∀ call ∈ t, ∃ nm, call = NativeCall.loadPluginNative nm := by
  intro names
  induction names with
  | nil =>
      intro m tr m2 tr2 h
      rw [loadPhase_nil] at h
      obtain ⟨h1, h2⟩ := Prod.mk.injEq .. |>.mp (Except.ok.inj h)
      exact ⟨[], by rw [← h2]; simp, by simp⟩
  | cons n rest ih =>
      intro m tr m2 tr2 h
      rcases hmn : m n with _ | e
      · rw [loadPhase_none st env n rest m tr hmn] at h
        exact absurd h (by simp)
      · rcases Bool.eq_false_or_eq_true e.processed with hp | hp
        · rw [loadPhase_step_processed st env n rest m tr e hmn hp] at h
          obtain ⟨t, ht, honly⟩ := ih _ _ _ _ h
          refine ⟨(loadPlugin st env n).2.2 ++ t, by rw [ht, List.append_assoc], ?_⟩
          intro call hc
          rcases List.mem_append.mp hc with h1 | h2
          · exact loadPlugin_trace_only st env n call h1
          · exact honly call h2
        · rw [loadPhase_step_skip st env n rest m tr e hmn hp] at h
          exact ih m tr m2 tr2 h

/-- Claim C5: `processAndLoadPlugins` never aborts the batch; it returns a
record with an entry for every input name; an entry whose processed flag is
false never has a `loaded` field; a name whose (final) process step was
rejected or threw ends with exactly the `processed: false` entry of that
outcome and no `loaded` field; a name that processed and whose load step
returned true ends with `loaded = true`; and all process-plugin native calls
precede all load-plugin native calls. -/
theorem processAndLoadPlugins_spec (st : BridgeState) (env : NativeEnv)
    (names : List String) :
    ∃ m tr, processAndLoadPlugins st env names = Except.ok (m, tr) ∧
      (∀ n ∈ names, (m n).isSome = true) ∧
      (∀ n, n ∉ names → m n = none) ∧
      (∀ n e, m n = some e → e.processed = false → e.loaded = none) ∧
      (∀ n ∈ names,
        ((processPlugin st env n).1 = Except.ok false ∨
          (∃ msg, (processPlugin st env n).1 = Except.error msg)) →
        m n = some (procEntry st env n) ∧
          (procEntry st env n).processed = false ∧
          (procEntry st env n).loaded = none) ∧
      (∀ n ∈ names, (loadPlugin st env n).1 = Except.ok true →
        ∀ e, m n = some e → e.processed = true → e.loaded = some true) ∧
      (∃ trP trL, tr = trP ++ trL ∧
        (∀ call ∈ trP, ∃ path2, call = NativeCall.processPluginNative path2) ∧
        (∀ call ∈ trL, ∃ nm, call = NativeCall.loadPluginNative nm)) := by
  have hmain : processAndLoadPlugins st env names =
      loadPhase st env names
        (processPhase st env names (fun _ => none) []).1
        (processPhase st env names (fun _ => none) []).2 := rfl
  have hm1 : ∀ k, (processPhase st env names (fun _ => none) []).1 k =
      if k ∈ names then some (procEntry st env k) else none :=
    fun k => processPhase_map st env names (fun _ => none) [] k
  have hall : ∀ n ∈ names,
      ((processPhase st env names (fun _ => none) []).1 n).isSome = true := by
    intro n hn
    rw [hm1 n, if_pos hn]
    rfl
  obtain ⟨⟨m2, tr2⟩, hok⟩ :=
    loadPhase_ok st env names (processPhase st env names (fun _ => none) []).1
      (processPhase st env names (fun _ => none) []).2 hall
  refine ⟨m2, tr2, by rw [hmain, hok], ?_, ?_, ?_, ?_, ?_, ?_⟩
  · intro n hn
    exact loadPhase_isSome st env names _ _ m2 tr2 hok n (hall n hn)
  · intro n hn
    rw [loadPhase_not_mem st env names _ _ m2 tr2 hok n hn, hm1 n, if_neg hn]
  · intro n e he hpe
    by_cases hn : n ∈ names
    · obtain ⟨e0, he0, hpstable⟩ :=
        loadPhase_processed_stable st env names _ _ m2 tr2 hok n e he
      rw [hm1 n, if_pos hn] at he0
      obtain rfl : procEntry st env n = e0 := Option.some.inj he0
      rcases Bool.eq_false_or_eq_true (procEntry st env n).processed with hq | hq
      · rw [hq] at hpstable
        rw [hpstable] at hpe
        exact Bool.noConfusion hpe
      · have hfs := loadPhase_false_stable st env names _ _ m2 tr2 hok n
          (procEntry st env n) (by rw [hm1 n, if_pos hn]) hq
        rw [hfs] at he
        rw [← Option.some.inj he]
        exact procEntry_loaded st env n
    · rw [loadPhase_not_mem st env names _ _ m2 tr2 hok n hn, hm1 n, if_neg hn] at he
      exact Option.noConfusion he
  · intro n hn hfail
    have hq := procEntry_processed_of_fail st env n hfail
    have hfs := loadPhase_false_stable st env names _ _ m2 tr2 hok n
      (procEntry st env n) (by rw [hm1 n, if_pos hn]) hq
    exact ⟨hfs, hq, procEntry_loaded st env n⟩
  · intro n hn hload e he hpe
    exact loadPhase_load_true st env names _ _ m2 tr2 hok n hn hload e he hpe
  · obtain ⟨tP, htP, honlyP⟩ := processPhase_trace st env names (fun _ => none) []
    obtain ⟨tL, htL, honlyL⟩ := loadPhase_trace st env names _ _ m2 tr2 hok
    refine ⟨tP, tL, ?_, honlyP, honlyL⟩
    rw [htL, htP]
    simp

/-- Witness for C5 on the spec's example shape `[a, b, c]` with `b` failing
to process: the batch completes with an entry for every name. -/
theorem processAndLoadPlugins_spec_witness :
    ∃ m tr, processAndLoadPlugins stInit envBatch ["a", "b", "c"] =
        Except.ok (m, tr) ∧
      (m "a").isSome = true ∧ (m "b").isSome = true ∧ (m "c").isSome = true := by
  obtain ⟨m, tr, h1, h2, _⟩ := processAndLoadPlugins_spec stInit envBatch ["a", "b", "c"]
  exact ⟨m, tr, h1, h2 "a" (by simp), h2 "b" (by simp), h2 "c" (by simp)⟩

end LogosSDK
